import Mathlib

/-!
Verification of the token-length utilities and RO-Crate helpers of the
LLM-RO-Crate-Experiments repository.

The Python sources are embedded shallowly:

* JSON-like Python values (`PyVal`) model manifests and graph nodes;
  Python `dict.get(k, default)` becomes `pyGetD` / `dictGetD`, and the
  Python membership test `needle in container` becomes `pyIn`.
* The tokenizer (the external `tiktoken` encodings selected by the model
  name) is abstracted as a `Tokenizer` record with `enc` and `dec`
  functions; `count_tokens`, `truncate_text_to_tokens`,
  `chunk_text_by_tokens` and `optimize_rocrate_for_llm` are defined over
  an arbitrary tokenizer, and a concrete character-level tokenizer
  `charTok` instantiates them for witnesses.
* `TokenBudgetManager` becomes a structure with explicit state passing;
  `allocate` returns the boolean result together with the new state.
-/

/-- A Python/JSON value, as far as the RO-Crate helpers inspect it:
`None`, strings, integers, lists and string-keyed dictionaries
(association lists in insertion order, keys unique in well-formed data). -/
inductive PyVal where
  | none : PyVal
  | str : String → PyVal
  | int : Int → PyVal
  | list : List PyVal → PyVal
  | dict : List (String × PyVal) → PyVal
  deriving Repr

mutual

/-- Decidable equality on `PyVal`, written by hand because the nested
lists defeat the automatic derivation. -/
def PyVal.decEq : (a b : PyVal) → Decidable (a = b)
  | PyVal.none, PyVal.none => Decidable.isTrue rfl
  | PyVal.str a, PyVal.str b =>
    match String.decEq a b with
    | Decidable.isTrue h => Decidable.isTrue (by rw [h])
    | Decidable.isFalse h => Decidable.isFalse (by intro hc; injection hc; exact h ‹_›)
  | PyVal.int a, PyVal.int b =>
    match Int.decEq a b with
    | Decidable.isTrue h => Decidable.isTrue (by rw [h])
    | Decidable.isFalse h => Decidable.isFalse (by intro hc; injection hc; exact h ‹_›)
  | PyVal.list a, PyVal.list b =>
    match PyVal.decEqList a b with
    | Decidable.isTrue h => Decidable.isTrue (by rw [h])
    | Decidable.isFalse h => Decidable.isFalse (by intro hc; injection hc; exact h ‹_›)
  | PyVal.dict a, PyVal.dict b =>
    match PyVal.decEqDict a b with
    | Decidable.isTrue h => Decidable.isTrue (by rw [h])
    | Decidable.isFalse h => Decidable.isFalse (by intro hc; injection hc; exact h ‹_›)
  | PyVal.none, PyVal.str _ => Decidable.isFalse (fun h => PyVal.noConfusion h)
  | PyVal.none, PyVal.int _ => Decidable.isFalse (fun h => PyVal.noConfusion h)
  | PyVal.none, PyVal.list _ => Decidable.isFalse (fun h => PyVal.noConfusion h)
  | PyVal.none, PyVal.dict _ => Decidable.isFalse (fun h => PyVal.noConfusion h)
  | PyVal.str _, PyVal.none => Decidable.isFalse (fun h => PyVal.noConfusion h)
  | PyVal.str _, PyVal.int _ => Decidable.isFalse (fun h => PyVal.noConfusion h)
  | PyVal.str _, PyVal.list _ => Decidable.isFalse (fun h => PyVal.noConfusion h)
  | PyVal.str _, PyVal.dict _ => Decidable.isFalse (fun h => PyVal.noConfusion h)
  | PyVal.int _, PyVal.none => Decidable.isFalse (fun h => PyVal.noConfusion h)
  | PyVal.int _, PyVal.str _ => Decidable.isFalse (fun h => PyVal.noConfusion h)
  | PyVal.int _, PyVal.list _ => Decidable.isFalse (fun h => PyVal.noConfusion h)
  | PyVal.int _, PyVal.dict _ => Decidable.isFalse (fun h => PyVal.noConfusion h)
  | PyVal.list _, PyVal.none => Decidable.isFalse (fun h => PyVal.noConfusion h)
  | PyVal.list _, PyVal.str _ => Decidable.isFalse (fun h => PyVal.noConfusion h)
  | PyVal.list _, PyVal.int _ => Decidable.isFalse (fun h => PyVal.noConfusion h)
  | PyVal.list _, PyVal.dict _ => Decidable.isFalse (fun h => PyVal.noConfusion h)
  | PyVal.dict _, PyVal.none => Decidable.isFalse (fun h => PyVal.noConfusion h)
  | PyVal.dict _, PyVal.str _ => Decidable.isFalse (fun h => PyVal.noConfusion h)
  | PyVal.dict _, PyVal.int _ => Decidable.isFalse (fun h => PyVal.noConfusion h)
  | PyVal.dict _, PyVal.list _ => Decidable.isFalse (fun h => PyVal.noConfusion h)

/-- Decidable equality on lists of `PyVal`. -/
def PyVal.decEqList : (a b : List PyVal) → Decidable (a = b)
  | [], [] => Decidable.isTrue rfl
  | [], _ :: _ => Decidable.isFalse (fun h => List.noConfusion h)
  | _ :: _, [] => Decidable.isFalse (fun h => List.noConfusion h)
  | a :: as, b :: bs =>
    match PyVal.decEq a b with
    | Decidable.isFalse h =>
      Decidable.isFalse (by intro hc; injection hc; exact h ‹_›)
    | Decidable.isTrue h1 =>
      match PyVal.decEqList as bs with
      | Decidable.isTrue h2 => Decidable.isTrue (by rw [h1, h2])
      | Decidable.isFalse h2 =>
        Decidable.isFalse (by intro hc; injection hc; exact h2 ‹_›)

/-- Decidable equality on string-keyed association lists of `PyVal`. -/
def PyVal.decEqDict : (a b : List (String × PyVal)) → Decidable (a = b)
  | [], [] => Decidable.isTrue rfl
  | [], _ :: _ => Decidable.isFalse (fun h => List.noConfusion h)
  | _ :: _, [] => Decidable.isFalse (fun h => List.noConfusion h)
  | (k, v) :: as, (k2, v2) :: bs =>
    match String.decEq k k2 with
    | Decidable.isFalse h =>
      Decidable.isFalse (by intro hc; injection hc with hp ht; injection hp; exact h ‹_›)
    | Decidable.isTrue hk =>
      match PyVal.decEq v v2 with
      | Decidable.isFalse h =>
        Decidable.isFalse (by intro hc; injection hc with hp ht; injection hp; exact h ‹_›)
      | Decidable.isTrue hv =>
        match PyVal.decEqDict as bs with
        | Decidable.isTrue ht => Decidable.isTrue (by rw [hk, hv, ht])
        | Decidable.isFalse h =>
          Decidable.isFalse (by intro hc; injection hc; exact h ‹_›)

end

instance : DecidableEq PyVal := PyVal.decEq

instance : BEq PyVal := instBEqOfDecidableEq

instance : LawfulBEq PyVal where
  eq_of_beq h := of_decide_eq_true h
  rfl := decide_eq_true rfl

/-- First binding of key `k` in an association list, or `d` when absent:
Python `dict.get(k, d)` (keys are unique in a Python dict, so first
binding is the binding). -/
def dictGetD (m : List (String × PyVal)) (k : String) (d : PyVal) : PyVal :=
  match m.find? (fun p => p.1 == k) with
  | Option.some p => p.2
  | Option.none => d

/-- Python `k in dict` for an association list. -/
def dictHasKey (m : List (String × PyVal)) (k : String) : Bool :=
  m.any (fun p => p.1 == k)

/-- Python `item.get(k, d)` on a graph entry. A non-dict receiver raises
`AttributeError` in Python; none of the verified properties reach that
case, and it is modelled by returning the default. -/
def pyGetD (v : PyVal) (k : String) (d : PyVal) : PyVal :=
  match v with
  | PyVal.dict m => dictGetD m k d
  | _ => d

/-- `True` when `v` is a dictionary. -/
def PyVal.isDict : PyVal → Bool
  | PyVal.dict _ => true
  | _ => false

/-- Substring test on strings, Python `needle in hay` for `str`. -/
def strContains (hay needle : String) : Bool :=
  decide (needle.data <:+: hay.data)

/-- Python `str.lower()`: character-wise lowercasing (the same
character function as Lean's `String.toLower`, written over the
character list so that it evaluates by reduction). -/
def strToLower (s : String) : String :=
  String.mk (s.data.map Char.toLower)

/-- Python `needle in container` for a string needle: substring test on a
string, element test on a list, key test on a dict. On `None` or an int
Python raises `TypeError`; none of the verified properties reach that
case, and it is modelled by `false`. -/
def pyIn (needle : String) (container : PyVal) : Bool :=
  match container with
  | PyVal.str s => strContains s needle
  | PyVal.list l => l.contains (PyVal.str needle)
  | PyVal.dict m => dictHasKey m needle
  | _ => false

/-! ### `src/utils/rocrate_utils.py`: `ROCrateAnalyzer` and
`validate_rocrate_structure`

The analyzer stores `manifest.get('@graph', [])`; its methods are
modelled as functions of that graph (a list of `PyVal` entries). -/

/-- `ROCrateAnalyzer.get_root_dataset`: first graph entry whose `@id` is
`./` and whose `@type` contains `Dataset` under Python `in`. -/
def get_root_dataset (graph : List PyVal) : Option PyVal :=
  graph.find? (fun item =>
    pyGetD item "@id" PyVal.none == PyVal.str "./" &&
    pyIn "Dataset" (pyGetD item "@type" (PyVal.list [])))

/-- `ROCrateAnalyzer.get_files`: graph entries whose `@type` contains
`File` under Python `in`. -/
def get_files (graph : List PyVal) : List PyVal :=
  graph.filter (fun item => pyIn "File" (pyGetD item "@type" (PyVal.list [])))

/-- `ROCrateAnalyzer.get_people`: graph entries whose `@type` contains
`Person` under Python `in`. -/
def get_people (graph : List PyVal) : List PyVal :=
  graph.filter (fun item => pyIn "Person" (pyGetD item "@type" (PyVal.list [])))

/-- `ROCrateAnalyzer.get_organizations`: graph entries whose `@type`
contains `Organization` under Python `in`. -/
def get_organizations (graph : List PyVal) : List PyVal :=
  graph.filter (fun item => pyIn "Organization" (pyGetD item "@type" (PyVal.list [])))

/-- Issues contributed by the `@context` checks of
`validate_rocrate_structure`. -/
def contextIssues (manifest : List (String × PyVal)) : List String :=
  if ¬ dictHasKey manifest "@context" then ["Missing @context"]
  else if dictGetD manifest "@context" PyVal.none ≠
      PyVal.str "https://w3id.org/ro/crate/1.1/context" then
    ["Unexpected @context value"]
  else []

/-- Issues contributed by the metadata-descriptor checks of
`validate_rocrate_structure`, given the graph. -/
def descriptorIssues (graph : List PyVal) : List String :=
  match graph.find? (fun item =>
      pyGetD item "@id" PyVal.none == PyVal.str "ro-crate-metadata.json") with
  | Option.none => ["Missing ro-crate-metadata.json descriptor"]
  | Option.some md =>
    (if pyGetD md "@type" PyVal.none ≠ PyVal.str "CreativeWork" then
      ["Metadata descriptor should have @type CreativeWork"]
    else []) ++
    (if pyGetD (pyGetD md "conformsTo" (PyVal.dict [])) "@id" PyVal.none ≠
        PyVal.str "https://w3id.org/ro/crate/1.1" then
      ["Metadata descriptor should conform to RO-Crate 1.1"]
    else [])

/-- Issue contributed by the root-dataset check of
`validate_rocrate_structure`, given the graph. -/
def rootIssues (graph : List PyVal) : List String :=
  if (get_root_dataset graph).isNone then
    ["Missing root dataset (./ with @type Dataset)"]
  else []

/-- `validate_rocrate_structure`: collects context issues, then returns
early when `@graph` is missing or not a list, otherwise runs the
descriptor and root-dataset checks. -/
def validate_rocrate_structure (manifest : List (String × PyVal)) : List String :=
  let issues := contextIssues manifest
  if ¬ dictHasKey manifest "@graph" then issues ++ ["Missing @graph"]
  else
    match dictGetD manifest "@graph" PyVal.none with
    | PyVal.list graph => issues ++ descriptorIssues graph ++ rootIssues graph
    | _ => issues ++ ["@graph should be a list"]

/-! ### `src/experiments/describe_rocrates.py`: `extract_key_info` -/

/-- Root-dataset search of `extract_key_info`: requires `@id == './'`
and `@type == 'Dataset'` by Python equality (exact string, no list and
no substring match; the default for a missing `@type` is `None`). -/
def extractRootDataset (graph : List PyVal) : Option PyVal :=
  graph.find? (fun item =>
    pyGetD item "@id" PyVal.none == PyVal.str "./" &&
    pyGetD item "@type" PyVal.none == PyVal.str "Dataset")

/-- `extract_key_info` of `describe_rocrates.py`, as a function of the
graph `manifest.get('@graph', [])`: the empty dict when no root dataset
is found, otherwise the summary dict built from the root dataset (its
`files_count` also uses exact equality `@type == 'File'`). -/
def extract_key_info (graph : List PyVal) : List (String × PyVal) :=
  match extractRootDataset graph with
  | Option.none => []
  | Option.some root =>
    [("name", pyGetD root "name" (PyVal.str "Unnamed Dataset")),
     ("description", pyGetD root "description" (PyVal.str "No description provided")),
     ("creator", pyGetD root "creator" (PyVal.list [])),
     ("keywords", pyGetD root "keywords" (PyVal.list [])),
     ("license", pyGetD root "license" (PyVal.dict [])),
     ("datePublished", pyGetD root "datePublished" (PyVal.str "Unknown")),
     ("files_count", PyVal.int
       ((graph.filter (fun item =>
         pyGetD item "@type" PyVal.none == PyVal.str "File")).length : Int)),
     ("hasPart", pyGetD root "hasPart" (PyVal.list []))]

/-! ### `src/token_length.py`: `TokenBudgetManager`

The Python class carries `total_budget`, `model`, `used_tokens` and the
`allocations` dict; the model name plays no role in the budget logic and
is dropped.  Python ints are unbounded, so token counts are `Int`. -/

/-- Overwrite-or-append update of an association list: Python
`d[k] = v`, which keeps the position of an existing key and appends a
new key at the end. -/
def dictSet (m : List (String × Int)) (k : String) (v : Int) : List (String × Int) :=
  match m with
  | [] => [(k, v)]
  | (k2, v2) :: rest =>
    if k2 = k then (k, v) :: rest else (k2, v2) :: dictSet rest k v

/-- Python `k in d` on an `Int`-valued association list. -/
def dictMem (m : List (String × Int)) (k : String) : Bool :=
  m.any (fun p => p.1 = k)

/-- `sum(d.values())` on an association list. -/
def sumValues (m : List (String × Int)) : Int :=
  (m.map Prod.snd).sum

/-- State of `TokenBudgetManager`. -/
structure TokenBudgetManager where
  total_budget : Int
  used_tokens : Int
  allocations : List (String × Int)
  deriving Repr, DecidableEq

/-- `TokenBudgetManager.__init__(total_budget)`: zero used tokens and an
empty allocations dict. -/
def TokenBudgetManager.init (total_budget : Int) : TokenBudgetManager :=
  ⟨total_budget, 0, []⟩

/-- `TokenBudgetManager.allocate(component, tokens)`: rejects without
mutation when `used_tokens + tokens > total_budget`, otherwise stores
`tokens` under `component` (overwriting any previous entry) and adds
`tokens` to `used_tokens`.  Returns the boolean and the resulting
state. -/
def TokenBudgetManager.allocate (m : TokenBudgetManager) (component : String)
    (tokens : Int) : Bool × TokenBudgetManager :=
  if m.used_tokens + tokens > m.total_budget then (false, m)
  else (true, ⟨m.total_budget, m.used_tokens + tokens,
    dictSet m.allocations component tokens⟩)

/-- `TokenBudgetManager.get_remaining()`. -/
def TokenBudgetManager.get_remaining (m : TokenBudgetManager) : Int :=
  m.total_budget - m.used_tokens

/-- Run a sequence of `allocate` calls from a starting state, keeping
only the final state. -/
def runAllocs (m : TokenBudgetManager) (calls : List (String × Int)) :
    TokenBudgetManager :=
  calls.foldl (fun s c => (s.allocate c.1 c.2).2) m

/-- Result record of `get_budget_summary`; the utilization is a rational
since Python `/` is true division. -/
structure BudgetSummary where
  total_budget : Int
  used_tokens : Int
  remaining_tokens : Int
  utilization_percent : ℚ
  allocations : List (String × Int)
  deriving Repr, DecidableEq

/-- Python true division on ints: raises `ZeroDivisionError` on a zero
denominator, otherwise an exact quotient (floats are modelled as
rationals). -/
def pyDiv (a b : Int) : Except String ℚ :=
  if b = 0 then Except.error "ZeroDivisionError"
  else Except.ok ((a : ℚ) / (b : ℚ))

/-- `TokenBudgetManager.get_budget_summary()`: a pure read (the method
assigns nothing, and returns `allocations.copy()`); the division
`used_tokens / total_budget` raises exactly when `total_budget == 0`. -/
def TokenBudgetManager.get_budget_summary (m : TokenBudgetManager) :
    Except String BudgetSummary :=
  (pyDiv m.used_tokens m.total_budget).map fun q =>
    ⟨m.total_budget, m.used_tokens, m.get_remaining, q * 100, m.allocations⟩

/-! ### `src/token_length.py`: tokenizer-based text utilities

`tiktoken` (selected by the model name, with the `cl100k_base` fallback)
is external to the repository; it is abstracted as an encode/decode pair
over which the text utilities are defined.  `charTok` below is a
concrete instance used to evaluate the definitions. -/

/-- An abstract tokenizer: the `tiktoken` encoding object obtained from
the model name.  `enc` is `encoding.encode`, `dec` is
`encoding.decode`. -/
structure Tokenizer where
  enc : String → List Nat
  dec : List Nat → String

/-- `count_tokens(text, model)`: length of the encoding. -/
def count_tokens (tok : Tokenizer) (text : String) : Nat :=
  (tok.enc text).length

/-- `truncate_text_to_tokens(text, max_tokens, model)`: the text itself
when it already fits, otherwise the decoding of the first `max_tokens`
tokens. -/
def truncate_text_to_tokens (tok : Tokenizer) (text : String) (max_tokens : Nat) :
    String :=
  let tokens := tok.enc text
  if tokens.length ≤ max_tokens then text
  else tok.dec (tokens.take max_tokens)

/-- Tokenizer soundness of prefix truncation: re-encoding the decoding
of the first `n` tokens of an encoded text yields at most `n` tokens.
This is the property of the external tokenizer that
`truncate_text_to_tokens` relies on (exact for tokenizers whose decode
is a left inverse of encode on token prefixes). -/
def truncRoundtrip (tok : Tokenizer) : Prop :=
  ∀ (s : String) (n : Nat), (tok.enc (tok.dec ((tok.enc s).take n))).length ≤ n

/-- Normalisation of a Python slice bound: negative indices count from
the end and are clamped at `0`, positive ones are clamped at the
length. -/
def pyNorm (len : Nat) (i : Int) : Nat :=
  if i < 0 then (max (i + len) 0).toNat else min i.toNat len

/-- Python `l[i:j]` on a list, with Python's negative-index and clamping
rules. -/
def pySlice {α : Type} (l : List α) (i j : Int) : List α :=
  (l.take (pyNorm l.length j)).drop (pyNorm l.length i)

/-- The `while start < len(tokens)` loop of `chunk_text_by_tokens`,
with explicit fuel: `none` means the loop has not finished within
`fuel` iterations (for a configuration where the loop diverges, the
result is `none` for every fuel).  `start` is an `Int` because
`start = end - overlap` can go negative in Python. -/
def chunkGo (tok : Tokenizer) (tokens : List Nat) (chunk_size overlap : Int) :
    Nat → Int → List String → Option (List String)
  | 0, _, _ => Option.none
  | fuel + 1, start, acc =>
    if start < (tokens.length : Int) then
      let e := min (start + chunk_size) (tokens.length : Int)
      let acc2 := acc ++ [tok.dec (pySlice tokens start e)]
      if (tokens.length : Int) ≤ e then Option.some acc2
      else chunkGo tok tokens chunk_size overlap fuel (e - overlap) acc2
    else Option.some acc

/-- `chunk_text_by_tokens(text, chunk_size, overlap, model)`: runs the
chunking loop with enough fuel for every terminating configuration
(each productive iteration advances `start` by at least one). -/
def chunk_text_by_tokens (tok : Tokenizer) (text : String)
    (chunk_size overlap : Int) : Option (List String) :=
  let tokens := tok.enc text
  chunkGo tok tokens chunk_size overlap (tokens.length + 1) 0 []

/-- Reference description of the chunk windows for a well-configured
call: from `start`, the window of `chunk` tokens, then (unless the
window reached the end) the windows from `start + step`, where
`step = chunk - overlap`. -/
def specWindows (tokens : List Nat) (chunk step : Nat) :
    Nat → Nat → List (List Nat)
  | 0, _ => []
  | fuel + 1, start =>
    if start < tokens.length then
      ((tokens.drop start).take chunk) ::
        (if tokens.length ≤ start + chunk then []
         else specWindows tokens chunk step fuel (start + step))
    else []

/-- The keyword list of `optimize_rocrate_for_llm`. -/
def importantKeywords : List String :=
  ["dataset name:", "description:", "keywords:", "creators:",
   "published:", "license:", "number of files:"]

/-- Python `text.split('\n')` written structurally over the character
list (Lean's `String.splitOn` computes the same split but is defined by
byte-position recursion that the kernel cannot reduce): accumulate the
current piece, cut at every newline, keep empty pieces. -/
def splitLinesAux : List Char → List Char → List String
  | [], acc => [String.mk acc.reverse]
  | c :: cs, acc =>
    if c = '\n' then String.mk acc.reverse :: splitLinesAux cs []
    else splitLinesAux cs (c :: acc)

/-- Python `text.split('\n')`. -/
def splitLines (s : String) : List String :=
  splitLinesAux s.data []

/-- The importance test of `optimize_rocrate_for_llm`:
`any(keyword in line.lower() for keyword in ...)`. -/
def isImportant (line : String) : Bool :=
  importantKeywords.any (fun kw => strContains (strToLower line) kw)

/-- The `for line in other_lines` loop of `optimize_rocrate_for_llm`:
append lines one at a time, stopping (`break`) at the first line whose
addition pushes the joined text over `max_tokens`. -/
def addOtherLines (tok : Tokenizer) (max_tokens : Nat) :
    List String → List String → List String
  | result, [] => result
  | result, line :: rest =>
    if max_tokens < count_tokens tok (String.intercalate "\n" (result ++ [line])) then
      result
    else addOtherLines tok max_tokens (result ++ [line]) rest

/-- `optimize_rocrate_for_llm(rocrate_text, max_tokens, model)`: the
input when it fits; otherwise the important lines followed by as many
other lines as fit, hard-truncated when the joined text still exceeds
the budget. -/
def optimize_rocrate_for_llm (tok : Tokenizer) (rocrate_text : String)
    (max_tokens : Nat) : String :=
  if count_tokens tok rocrate_text ≤ max_tokens then rocrate_text
  else
    let lines := splitLines rocrate_text
    let important_lines := lines.filter isImportant
    let other_lines := lines.filter (fun l => ¬ isImportant l)
    let result_lines := addOtherLines tok max_tokens important_lines other_lines
    let optimized_text := String.intercalate "\n" result_lines
    if max_tokens < count_tokens tok optimized_text then
      truncate_text_to_tokens tok optimized_text max_tokens
    else optimized_text

/-- A concrete tokenizer for evaluating the definitions: one token per
character. -/
def charTok : Tokenizer :=
  ⟨fun s => s.data.map Char.toNat, fun l => String.mk (l.map Char.ofNat)⟩

/-! ## Supporting lemmas: the budget manager -/

theorem dictSet_sumValues (m : List (String × Int)) (k : String) (v : Int)
    (h : dictMem m k = false) : sumValues (dictSet m k v) = sumValues m + v := by
  induction m with
  | nil => simp [dictSet, sumValues]
  | cons p rest ih =>
    obtain ⟨k2, v2⟩ := p
    simp only [dictMem, List.any_cons, Bool.or_eq_false_iff] at h
    obtain ⟨h1, h2⟩ := h
    have hne : ¬ k2 = k := by simpa using h1
    simp only [dictSet, if_neg hne, sumValues, List.map_cons, List.sum_cons]
    have := ih h2
    simp only [sumValues] at this
    omega

theorem dictSet_mem (m : List (String × Int)) (k k2 : String) (v : Int) :
    dictMem (dictSet m k v) k2 = true ↔ k = k2 ∨ dictMem m k2 = true := by
  induction m with
  | nil => simp [dictSet, dictMem]
  | cons p rest ih =>
    obtain ⟨k3, v3⟩ := p
    by_cases h : k3 = k
    · subst h
      simp [dictSet, dictMem]
    · simp only [dictSet, if_neg h, dictMem, List.any_cons, Bool.or_eq_true,
        decide_eq_true_eq] at ih ⊢
      tauto

theorem allocate_total (m : TokenBudgetManager) (c : String) (t : Int) :
    ((m.allocate c t).2).total_budget = m.total_budget := by
  unfold TokenBudgetManager.allocate
  split <;> rfl

theorem allocate_le (m : TokenBudgetManager) (c : String) (t : Int)
    (h : m.used_tokens ≤ m.total_budget) :
    ((m.allocate c t).2).used_tokens ≤ ((m.allocate c t).2).total_budget := by
  unfold TokenBudgetManager.allocate
  split
  · exact h
  · next hna => simp only []; omega

theorem runAllocs_le (calls : List (String × Int)) :
    ∀ m : TokenBudgetManager, m.used_tokens ≤ m.total_budget →
      (runAllocs m calls).used_tokens ≤ (runAllocs m calls).total_budget := by
  induction calls with
  | nil => intro m h; exact h
  | cons c rest ih =>
    intro m h
    exact ih _ (allocate_le m c.1 c.2 h)

theorem runAllocs_sum (calls : List (String × Int)) :
    ∀ m : TokenBudgetManager,
      m.used_tokens = sumValues m.allocations →
      (∀ k, dictMem m.allocations k = true → k ∉ calls.map Prod.fst) →
      (calls.map Prod.fst).Nodup →
      (runAllocs m calls).used_tokens = sumValues (runAllocs m calls).allocations := by
  induction calls with
  | nil => intro m h _ _; exact h
  | cons c rest ih =>
    intro m hsum hfresh hnd
    obtain ⟨comp, t⟩ := c
    simp only [List.map_cons, List.nodup_cons] at hnd
    show (runAllocs ((m.allocate comp t).2) rest).used_tokens =
      sumValues (runAllocs ((m.allocate comp t).2) rest).allocations
    unfold TokenBudgetManager.allocate
    split
    · exact ih m hsum
        (fun k hk => fun hmem => hfresh k hk (List.mem_cons_of_mem _ hmem)) hnd.2
    · next hna =>
      apply ih
      · have hcomp : dictMem m.allocations comp = false := by
          by_contra hc
          have : dictMem m.allocations comp = true := by
            revert hc; cases dictMem m.allocations comp <;> simp
          exact hfresh comp this (List.mem_cons_self _ _)
        simp only []
        rw [dictSet_sumValues _ _ _ hcomp, ← hsum]
      · intro k hk
        simp only [] at hk
        rw [dictSet_mem] at hk
        rcases hk with h1 | h2
        · subst h1; exact hnd.1
        · intro hmem
          exact hfresh k h2 (List.mem_cons_of_mem _ hmem)
      · exact hnd.2

/-! ## C1, C6, C8: the budget manager claims -/

/-- C1 (amended): starting from `__init__` with a nonnegative total
budget, after any sequence of `allocate` calls `used_tokens ≤
total_budget` holds, and `used_tokens = sum(allocations.values())` holds
provided no two calls share a component name (re-allocating a component
overwrites its entry while still adding the full amount to
`used_tokens`, which breaks the sum equation). -/
theorem budget_invariant_after_allocs (total : Int) (calls : List (String × Int))
    (h0 : 0 ≤ total) :
    (runAllocs (TokenBudgetManager.init total) calls).used_tokens ≤
      (runAllocs (TokenBudgetManager.init total) calls).total_budget ∧
    ((calls.map Prod.fst).Nodup →
      (runAllocs (TokenBudgetManager.init total) calls).used_tokens =
        sumValues (runAllocs (TokenBudgetManager.init total) calls).allocations) := by
  constructor
  · exact runAllocs_le calls _ (by simpa [TokenBudgetManager.init] using h0)
  · intro hnd
    exact runAllocs_sum calls _ (by simp [TokenBudgetManager.init, sumValues])
      (by simp [TokenBudgetManager.init, dictMem]) hnd

theorem budget_invariant_after_allocs_witness :
    0 ≤ (10 : Int) ∧
    ((([("a", 3), ("b", 4)] : List (String × Int)).map Prod.fst).Nodup) ∧
    (runAllocs (TokenBudgetManager.init 10) [("a", 3), ("b", 4)]).used_tokens ≤
      (runAllocs (TokenBudgetManager.init 10) [("a", 3), ("b", 4)]).total_budget ∧
    (runAllocs (TokenBudgetManager.init 10) [("a", 3), ("b", 4)]).used_tokens =
      sumValues (runAllocs (TokenBudgetManager.init 10) [("a", 3), ("b", 4)]).allocations :=
  ⟨by decide, by decide, (budget_invariant_after_allocs 10 _ (by decide)).1,
    (budget_invariant_after_allocs 10 _ (by decide)).2 (by decide)⟩

/-- C1 counterexample: two successful allocations to the same component
leave `used_tokens = 3` but `sum(allocations.values()) = 2`, so the
claimed invariant `used_tokens == sum(allocations.values())` fails after
the second call. -/
theorem budget_invariant_counterexample :
    (runAllocs (TokenBudgetManager.init 100) [("a", 1), ("a", 2)]).used_tokens = 3 ∧
    sumValues (runAllocs (TokenBudgetManager.init 100) [("a", 1), ("a", 2)]).allocations = 2 ∧
    (runAllocs (TokenBudgetManager.init 100) [("a", 1), ("a", 2)]).used_tokens ≠
      sumValues (runAllocs (TokenBudgetManager.init 100) [("a", 1), ("a", 2)]).allocations := by
  decide

/-- C6: an `allocate` call with `used_tokens + tokens > total_budget`
returns `False` and leaves the whole state (both `used_tokens` and
`allocations`) exactly as it was, raising nothing. -/
theorem allocate_reject_no_mutation (m : TokenBudgetManager) (component : String)
    (tokens : Int) (h : m.total_budget < m.used_tokens + tokens) :
    m.allocate component tokens = (false, m) := by
  unfold TokenBudgetManager.allocate
  rw [if_pos h]

theorem allocate_reject_no_mutation_witness :
    (TokenBudgetManager.init 5).total_budget <
      (TokenBudgetManager.init 5).used_tokens + 6 ∧
    (TokenBudgetManager.init 5).allocate "x" 6 = (false, TokenBudgetManager.init 5) :=
  ⟨by decide, allocate_reject_no_mutation _ "x" 6 (by decide)⟩

/-- C8: `get_budget_summary` (a pure read, modelled without any state
output because the method assigns nothing and returns a copy of the
allocations) raises a division-by-zero error exactly when
`total_budget = 0`, and otherwise returns the record with
`utilization_percent = used_tokens / total_budget * 100` together with
total, used, remaining and the allocations. -/
theorem budget_summary_spec (m : TokenBudgetManager) :
    (m.total_budget = 0 → m.get_budget_summary = Except.error "ZeroDivisionError") ∧
    (m.total_budget ≠ 0 → m.get_budget_summary = Except.ok
      ⟨m.total_budget, m.used_tokens, m.total_budget - m.used_tokens,
        (m.used_tokens : ℚ) / (m.total_budget : ℚ) * 100, m.allocations⟩) := by
  constructor
  · intro h
    simp [TokenBudgetManager.get_budget_summary, pyDiv, h, Except.map]
  · intro h
    simp [TokenBudgetManager.get_budget_summary, pyDiv, h, Except.map,
      TokenBudgetManager.get_remaining]

theorem budget_summary_spec_witness :
    ((TokenBudgetManager.init 0).total_budget = 0 ∧
      (TokenBudgetManager.init 0).get_budget_summary =
        Except.error "ZeroDivisionError") ∧
    ((⟨200, 50, [("ctx", 50)]⟩ : TokenBudgetManager).total_budget ≠ 0 ∧
      (⟨200, 50, [("ctx", 50)]⟩ : TokenBudgetManager).get_budget_summary = Except.ok
        ⟨200, 50, 200 - 50, ((50 : Int) : ℚ) / ((200 : Int) : ℚ) * 100, [("ctx", 50)]⟩) :=
  ⟨⟨rfl, (budget_summary_spec _).1 rfl⟩,
    ⟨by decide, (budget_summary_spec _).2 (by decide)⟩⟩

/-! ## C5: `validate_rocrate_structure` on a manifest without `@graph` -/

/-- C5 (amended): a manifest lacking `@graph` whose `@context` is
present with the expected value yields exactly `["Missing @graph"]`, and
no graph-dependent check is attempted; when the `@context` checks fail
their issue precedes `"Missing @graph"` in the returned list. -/
theorem validate_missing_graph (manifest : List (String × PyVal))
    (hctx : dictHasKey manifest "@context" = true)
    (hval : dictGetD manifest "@context" PyVal.none =
      PyVal.str "https://w3id.org/ro/crate/1.1/context")
    (hg : dictHasKey manifest "@graph" = false) :
    validate_rocrate_structure manifest = ["Missing @graph"] := by
  unfold validate_rocrate_structure contextIssues
  simp [hctx, hval, hg]

theorem validate_missing_graph_witness :
    dictHasKey [("@context", PyVal.str "https://w3id.org/ro/crate/1.1/context")]
      "@context" = true ∧
    dictGetD [("@context", PyVal.str "https://w3id.org/ro/crate/1.1/context")]
      "@context" PyVal.none = PyVal.str "https://w3id.org/ro/crate/1.1/context" ∧
    dictHasKey [("@context", PyVal.str "https://w3id.org/ro/crate/1.1/context")]
      "@graph" = false ∧
    validate_rocrate_structure
      [("@context", PyVal.str "https://w3id.org/ro/crate/1.1/context")] =
      ["Missing @graph"] :=
  ⟨rfl, rfl, rfl, validate_missing_graph _ rfl rfl rfl⟩

/-- C5 counterexample: the empty manifest lacks `@graph`, yet
`validate_rocrate_structure` returns the two-element list
`["Missing @context", "Missing @graph"]`, not exactly
`["Missing @graph"]`, because the `@context` check runs first. -/
theorem validate_missing_graph_counterexample :
    dictHasKey ([] : List (String × PyVal)) "@graph" = false ∧
    validate_rocrate_structure [] = ["Missing @context", "Missing @graph"] ∧
    validate_rocrate_structure [] ≠ ["Missing @graph"] := by
  refine ⟨rfl, rfl, ?_⟩
  intro h
  exact List.noConfusion (List.noConfusion h (fun _ h2 => h2))

/-! ## C7: `get_files`, `get_people`, `get_organizations` -/

theorem mem_filterByType_str (q : String) (graph : List PyVal) (item : PyVal)
    (s : String) (hs : pyGetD item "@type" (PyVal.list []) = PyVal.str s) :
    item ∈ graph.filter (fun it => pyIn q (pyGetD it "@type" (PyVal.list []))) ↔
      item ∈ graph ∧ q.data <:+: s.data := by
  rw [List.mem_filter, hs]
  simp [pyIn, strContains]

theorem mem_filterByType_list (q : String) (graph : List PyVal) (item : PyVal)
    (l : List PyVal) (hl : pyGetD item "@type" (PyVal.list []) = PyVal.list l) :
    item ∈ graph.filter (fun it => pyIn q (pyGetD it "@type" (PyVal.list []))) ↔
      item ∈ graph ∧ PyVal.str q ∈ l := by
  rw [List.mem_filter, hl]
  simp [pyIn]

/-- C7 (amended): `get_files`, `get_people` and `get_organizations`
return a sublist of the graph (hence in graph order), and an entry is
included exactly when its `@type` matches the query under Python `in`:
for a `@type` that is a list, exact membership of the type name; for a
`@type` that is a single string, *substring* containment of the type
name in that string (so e.g. a node typed `"Personnel"` is returned by
`get_people` although `"Person"` is not one of its types). -/
theorem nodes_of_type_spec (graph : List PyVal) :
    (get_files graph).Sublist graph ∧
    (get_people graph).Sublist graph ∧
    (get_organizations graph).Sublist graph ∧
    (∀ item s, pyGetD item "@type" (PyVal.list []) = PyVal.str s →
      ((item ∈ get_files graph ↔ item ∈ graph ∧ "File".data <:+: s.data) ∧
       (item ∈ get_people graph ↔ item ∈ graph ∧ "Person".data <:+: s.data) ∧
       (item ∈ get_organizations graph ↔
         item ∈ graph ∧ "Organization".data <:+: s.data))) ∧
    (∀ item l, pyGetD item "@type" (PyVal.list []) = PyVal.list l →
      ((item ∈ get_files graph ↔ item ∈ graph ∧ PyVal.str "File" ∈ l) ∧
       (item ∈ get_people graph ↔ item ∈ graph ∧ PyVal.str "Person" ∈ l) ∧
       (item ∈ get_organizations graph ↔
         item ∈ graph ∧ PyVal.str "Organization" ∈ l))) := by
  refine ⟨List.filter_sublist graph, List.filter_sublist graph,
    List.filter_sublist graph, ?_, ?_⟩
  · intro item s hs
    exact ⟨mem_filterByType_str "File" graph item s hs,
      mem_filterByType_str "Person" graph item s hs,
      mem_filterByType_str "Organization" graph item s hs⟩
  · intro item l hl
    exact ⟨mem_filterByType_list "File" graph item l hl,
      mem_filterByType_list "Person" graph item l hl,
      mem_filterByType_list "Organization" graph item l hl⟩

theorem nodes_of_type_spec_witness :
    (get_files [PyVal.dict [("@type", PyVal.list [PyVal.str "File"])],
      PyVal.dict [("@type", PyVal.str "CreativeWork")]]).Sublist
      [PyVal.dict [("@type", PyVal.list [PyVal.str "File"])],
       PyVal.dict [("@type", PyVal.str "CreativeWork")]] ∧
    (PyVal.dict [("@type", PyVal.list [PyVal.str "File"])] ∈
      get_files [PyVal.dict [("@type", PyVal.list [PyVal.str "File"])],
        PyVal.dict [("@type", PyVal.str "CreativeWork")]] ↔
      PyVal.dict [("@type", PyVal.list [PyVal.str "File"])] ∈
        [PyVal.dict [("@type", PyVal.list [PyVal.str "File"])],
         PyVal.dict [("@type", PyVal.str "CreativeWork")]] ∧
      PyVal.str "File" ∈ [PyVal.str "File"]) :=
  ⟨(nodes_of_type_spec _).1,
    ((nodes_of_type_spec
        [PyVal.dict [("@type", PyVal.list [PyVal.str "File"])],
         PyVal.dict [("@type", PyVal.str "CreativeWork")]]).2.2.2.2
      (PyVal.dict [("@type", PyVal.list [PyVal.str "File"])])
      [PyVal.str "File"] rfl).1⟩

/-- C7 counterexample: a graph node whose single-string `@type` is
`"Personnel"` is returned by `get_people`, although the exact name
`"Person"` is not one of its types: the Python `in` test is substring
containment on a string `@type`, not exact-name membership. -/
theorem nodes_of_type_counterexample :
    get_people [PyVal.dict [("@type", PyVal.str "Personnel")]] =
      [PyVal.dict [("@type", PyVal.str "Personnel")]] ∧
    pyGetD (PyVal.dict [("@type", PyVal.str "Personnel")]) "@type"
      (PyVal.list []) = PyVal.str "Personnel" ∧
    "Personnel" ≠ "Person" := by
  refine ⟨?_, rfl, by decide⟩
  decide

/-! ## C10: the two root-dataset lookups -/

theorem find?_middle {α : Type} (p : α → Bool) (pre post : List α) (a : α)
    (hpre : ∀ x ∈ pre, p x = false) (ha : p a = true) :
    (pre ++ a :: post).find? p = Option.some a := by
  induction pre with
  | nil => simpa [List.find?_cons] using List.find?_cons_of_pos post ha
  | cons b rest ih =>
    have hb := hpre b (List.mem_cons_self _ _)
    rw [List.cons_append, List.find?_cons_of_neg _ (by simp [hb])]
    exact ih (fun x hx => hpre x (List.mem_cons_of_mem _ hx))

theorem pyGetD_of_ne_default (v : PyVal) (k : String) (d1 d2 x : PyVal)
    (h : pyGetD v k d1 = x) (hx : x ≠ d1) : pyGetD v k d2 = x := by
  cases v with
  | dict m =>
    simp only [pyGetD, dictGetD] at h ⊢
    cases hf : m.find? (fun p => p.1 == k) with
    | some p => rw [hf] at h; exact h
    | none => rw [hf] at h; exact absurd h.symm hx
  | none => exact absurd h.symm hx
  | str s => exact absurd h.symm hx
  | int i => exact absurd h.symm hx
  | list l => exact absurd h.symm hx

/-- C10: on a graph with a single `./` entry, if that entry's `@type` is
the list `['Dataset']` then `ROCrateAnalyzer.get_root_dataset` returns
it while `extract_key_info` of `describe_rocrates.py` finds no root
dataset and returns the empty mapping; `extract_key_info` succeeds only
when the `@type` is exactly the string `'Dataset'`, in which case both
lookups agree on that entry. -/
theorem root_lookup_divergence (pre post : List PyVal) (node : PyVal)
    (hpre : ∀ x ∈ pre, pyGetD x "@id" PyVal.none ≠ PyVal.str "./")
    (hpost : ∀ x ∈ post, pyGetD x "@id" PyVal.none ≠ PyVal.str "./")
    (hid : pyGetD node "@id" PyVal.none = PyVal.str "./") :
    (pyGetD node "@type" (PyVal.list []) = PyVal.list [PyVal.str "Dataset"] →
      get_root_dataset (pre ++ node :: post) = Option.some node ∧
      extract_key_info (pre ++ node :: post) = []) ∧
    (extract_key_info (pre ++ node :: post) ≠ [] →
      pyGetD node "@type" PyVal.none = PyVal.str "Dataset") ∧
    (pyGetD node "@type" PyVal.none = PyVal.str "Dataset" →
      get_root_dataset (pre ++ node :: post) = Option.some node ∧
      extract_key_info (pre ++ node :: post) ≠ []) := by
  refine ⟨?_, ?_, ?_⟩
  · intro hT
    constructor
    · unfold get_root_dataset
      apply find?_middle
      · intro x hx
        simp [hpre x hx]
      · simp [hid, hT, pyIn]
    · unfold extract_key_info extractRootDataset
      have hnone : (pre ++ node :: post).find? (fun item =>
          pyGetD item "@id" PyVal.none == PyVal.str "./" &&
          pyGetD item "@type" PyVal.none == PyVal.str "Dataset") = Option.none := by
        rw [List.find?_eq_none]
        intro x hx
        rcases List.mem_append.1 hx with hx1 | hx2
        · simp [hpre x hx1]
        · rcases List.mem_cons.1 hx2 with hx3 | hx4
          · subst hx3
            have : pyGetD x "@type" PyVal.none = PyVal.list [PyVal.str "Dataset"] :=
              pyGetD_of_ne_default x "@type" (PyVal.list []) PyVal.none _ hT
                (by intro hc; exact List.noConfusion (PyVal.list.inj hc))
            simp [this]
          · simp [hpost x hx4]
      rw [hnone]
  · intro hne
    unfold extract_key_info at hne
    cases hf : extractRootDataset (pre ++ node :: post) with
    | none => rw [hf] at hne; exact absurd rfl hne
    | some r =>
      rw [hf] at hne
      unfold extractRootDataset at hf
      have hpred := List.find?_some hf
      have hr := List.mem_of_find?_eq_some hf
      simp only [Bool.and_eq_true, beq_iff_eq] at hpred
      rcases List.mem_append.1 hr with hx1 | hx2
      · exact absurd hpred.1 (hpre r hx1)
      · rcases List.mem_cons.1 hx2 with hx3 | hx4
        · rw [← hx3]; exact hpred.2
        · exact absurd hpred.1 (hpost r hx4)
  · intro hT2
    have hroot : extractRootDataset (pre ++ node :: post) = Option.some node := by
      unfold extractRootDataset
      apply find?_middle
      · intro x hx
        simp [hpre x hx]
      · simp [hid, hT2]
    constructor
    · unfold get_root_dataset
      apply find?_middle
      · intro x hx
        simp [hpre x hx]
      · have : pyGetD node "@type" (PyVal.list []) = PyVal.str "Dataset" :=
          pyGetD_of_ne_default node "@type" PyVal.none (PyVal.list []) _ hT2
            (fun hc => PyVal.noConfusion hc)
        simp [this, hid, pyIn, strContains, List.infix_refl]
    · unfold extract_key_info
      rw [hroot]
      intro hc
      exact List.noConfusion hc

theorem root_lookup_divergence_witness :
    get_root_dataset
      [PyVal.dict [("@id", PyVal.str "./"), ("@type", PyVal.list [PyVal.str "Dataset"])]] =
      Option.some (PyVal.dict
        [("@id", PyVal.str "./"), ("@type", PyVal.list [PyVal.str "Dataset"])]) ∧
    extract_key_info
      [PyVal.dict [("@id", PyVal.str "./"), ("@type", PyVal.list [PyVal.str "Dataset"])]] =
      [] :=
  (root_lookup_divergence [] []
    (PyVal.dict [("@id", PyVal.str "./"), ("@type", PyVal.list [PyVal.str "Dataset"])])
    (by intro x hx; cases hx) (by intro x hx; cases hx) rfl).1 rfl

/-! ## C9, C2, C3: `optimize_rocrate_for_llm` -/

/-- C9: when the input already tokenizes to at most the ceiling, the
optimizer returns it unchanged (hence it is idempotent on within-budget
inputs). -/
theorem optimize_identity_within_budget (tok : Tokenizer) (text : String)
    (max_tokens : Nat) (h : count_tokens tok text ≤ max_tokens) :
    optimize_rocrate_for_llm tok text max_tokens = text := by
  unfold optimize_rocrate_for_llm
  rw [if_pos h]

theorem optimize_identity_within_budget_witness :
    count_tokens charTok "hi" ≤ 10 ∧
    optimize_rocrate_for_llm charTok "hi" 10 = "hi" :=
  ⟨by decide, optimize_identity_within_budget charTok "hi" 10 (by decide)⟩

theorem count_truncate_le (tok : Tokenizer) (ht : truncRoundtrip tok)
    (text : String) (n : Nat) :
    count_tokens tok (truncate_text_to_tokens tok text n) ≤ n := by
  unfold truncate_text_to_tokens
  dsimp only
  split
  · next hle => exact hle
  · next h => exact ht text n

theorem charTok_truncRoundtrip : truncRoundtrip charTok := by
  intro s n
  have h : charTok.enc (charTok.dec ((charTok.enc s).take n)) =
      (((s.data.map Char.toNat).take n).map Char.ofNat).map Char.toNat := rfl
  rw [h]
  simp [List.length_take]

/-- C2: for every tokenizer satisfying the prefix-truncation soundness
property (re-encoding the decoding of a token prefix of length `n`
yields at most `n` tokens), every text and every ceiling ≥ 1, the
optimizer's output tokenizes to at most the ceiling, on all three paths:
within budget, greedy line rebuild, and hard truncation with
re-encoding. -/
theorem optimize_respects_budget (tok : Tokenizer) (ht : truncRoundtrip tok)
    (text : String) (max_tokens : Nat) (hmax : 1 ≤ max_tokens) :
    count_tokens tok (optimize_rocrate_for_llm tok text max_tokens) ≤ max_tokens := by
  unfold optimize_rocrate_for_llm
  split
  · next h => exact h
  · next h =>
    dsimp only
    split
    · next h2 => exact count_truncate_le tok ht _ _
    · next h2 => omega

theorem optimize_respects_budget_witness :
    1 ≤ 5 ∧
    count_tokens charTok
      (optimize_rocrate_for_llm charTok "keywords: a\nlicense: b" 5) ≤ 5 :=
  ⟨by decide,
    optimize_respects_budget charTok charTok_truncRoundtrip
      "keywords: a\nlicense: b" 5 (by decide)⟩

theorem addOtherLines_prefix (tok : Tokenizer) (max_tokens : Nat)
    (others : List String) :
    ∀ result, ∃ tail, addOtherLines tok max_tokens result others = result ++ tail := by
  induction others with
  | nil => intro result; exact ⟨[], by simp [addOtherLines]⟩
  | cons line rs ih =>
    intro result
    unfold addOtherLines
    split
    · exact ⟨[], by simp⟩
    · obtain ⟨t, ht⟩ := ih (result ++ [line])
      refine ⟨line :: t, ?_⟩
      rw [ht, List.append_assoc]
      rfl

theorem addOtherLines_le (tok : Tokenizer) (max_tokens : Nat)
    (others : List String) :
    ∀ result,
      count_tokens tok (String.intercalate "\n" result) ≤ max_tokens →
      count_tokens tok
        (String.intercalate "\n" (addOtherLines tok max_tokens result others)) ≤
        max_tokens := by
  induction others with
  | nil => intro result h; simpa [addOtherLines] using h
  | cons line rs ih =>
    intro result h
    unfold addOtherLines
    split
    · exact h
    · next h2 => exact ih (result ++ [line]) (by omega)

/-- C3 (amended): for an input over the ceiling, if the important lines
*jointly* (joined with newlines) tokenize to at most the ceiling, then
the optimizer's output is the newline-join of a line list that starts
with all important lines in their original relative order (individual
fit is not enough: the final hard truncation can cut important lines,
see the counterexample). -/
theorem optimize_keeps_important_lines (tok : Tokenizer) (text : String)
    (max_tokens : Nat) (hover : max_tokens < count_tokens tok text)
    (hfit : count_tokens tok (String.intercalate "\n"
      ((splitLines text).filter isImportant)) ≤ max_tokens) :
    ∃ tail, optimize_rocrate_for_llm tok text max_tokens =
      String.intercalate "\n" (((splitLines text).filter isImportant) ++ tail) := by
  unfold optimize_rocrate_for_llm
  rw [if_neg (by omega)]
  dsimp only
  obtain ⟨tail, htail⟩ := addOtherLines_prefix tok max_tokens
    ((splitLines text).filter (fun l => ¬ isImportant l))
    ((splitLines text).filter isImportant)
  have hle := addOtherLines_le tok max_tokens
    ((splitLines text).filter (fun l => ¬ isImportant l))
    ((splitLines text).filter isImportant) hfit
  rw [htail] at hle ⊢
  rw [if_neg (by omega)]
  exact ⟨tail, rfl⟩

theorem optimize_keeps_important_lines_witness :
    12 < count_tokens charTok "keywords: a\njunk" ∧
    count_tokens charTok (String.intercalate "\n"
      ((splitLines "keywords: a\njunk").filter isImportant)) ≤ 12 ∧
    ∃ tail, optimize_rocrate_for_llm charTok "keywords: a\njunk" 12 =
      String.intercalate "\n"
        (((splitLines "keywords: a\njunk").filter isImportant) ++ tail) :=
  ⟨by decide, by decide,
    optimize_keeps_important_lines charTok "keywords: a\njunk" 12
      (by decide) (by decide)⟩

/-- C3 counterexample: with the character tokenizer and ceiling 12, the
input `"keywords: a\nlicense: b"` is over the ceiling and each of its
two important lines individually fits (11 and 10 tokens), yet the
optimizer's output is the truncated `"keywords: a\n"`, in which the
important line `"license: b"` does not appear (not even as a
substring): individual fit does not guarantee preservation. -/
theorem optimize_keeps_important_lines_counterexample :
    12 < count_tokens charTok "keywords: a\nlicense: b" ∧
    (splitLines "keywords: a\nlicense: b").filter isImportant =
      ["keywords: a", "license: b"] ∧
    count_tokens charTok "keywords: a" ≤ 12 ∧
    count_tokens charTok "license: b" ≤ 12 ∧
    optimize_rocrate_for_llm charTok "keywords: a\nlicense: b" 12 =
      "keywords: a\n" ∧
    strContains (optimize_rocrate_for_llm charTok "keywords: a\nlicense: b" 12)
      "license: b" = false := by
  refine ⟨by decide, by decide, by decide, by decide, ?_, by decide⟩
  decide

/-! ## C4: `chunk_text_by_tokens` -/

theorem pySlice_window (tokens : List Nat) (start chunk : Nat)
    (hs : start ≤ tokens.length) :
    pySlice tokens (start : Int)
      (min ((start : Int) + (chunk : Int)) ((tokens.length : Int))) =
      (tokens.drop start).take chunk := by
  unfold pySlice pyNorm
  rw [if_neg (by omega), if_neg (by omega)]
  have h3 : min ((start : Int)).toNat tokens.length = start := by omega
  have h4 : min (min ((start : Int) + (chunk : Int))
      ((tokens.length : Int))).toNat tokens.length =
      min (start + chunk) tokens.length := by omega
  rw [h3, h4, List.drop_take]
  by_cases hc : start + chunk ≤ tokens.length
  · have h5 : min (start + chunk) tokens.length - start = chunk := by omega
    rw [h5]
  · have h5 : min (start + chunk) tokens.length - start = tokens.length - start := by
      omega
    rw [h5, List.take_of_length_le (by simp), List.take_of_length_le (by simp; omega)]

theorem chunkGo_stuck (tok : Tokenizer) (tokens : List Nat)
    (chunk_size overlap : Int) (hco : chunk_size ≤ overlap)
    (hlen : chunk_size < (tokens.length : Int))
    (hpos : 0 < (tokens.length : Int)) :
    ∀ fuel (start : Int), start ≤ 0 → ∀ acc,
      chunkGo tok tokens chunk_size overlap fuel start acc = Option.none := by
  intro fuel
  induction fuel with
  | zero => intro start h acc; rfl
  | succ n ih =>
    intro start h acc
    unfold chunkGo
    rw [if_pos (by omega)]
    dsimp only
    rw [if_neg (by omega)]
    exact ih _ (by omega) _

theorem chunkGo_spec (tok : Tokenizer) (tokens : List Nat)
    (chunk_size overlap : Nat) (hov : overlap < chunk_size) :
    ∀ fuel (start : Nat) acc, tokens.length - start < fuel →
      chunkGo tok tokens (chunk_size : Int) (overlap : Int) fuel (start : Int) acc =
        Option.some (acc ++
          (specWindows tokens chunk_size (chunk_size - overlap) fuel start).map
            tok.dec) := by
  intro fuel
  induction fuel with
  | zero => intro start acc h; exact absurd h (by omega)
  | succ n ih =>
    intro start acc h
    unfold chunkGo specWindows
    by_cases hs : start < tokens.length
    · rw [if_pos (by exact_mod_cast hs), if_pos hs]
      dsimp only
      rw [pySlice_window tokens start chunk_size (le_of_lt hs)]
      by_cases hbrk : tokens.length ≤ start + chunk_size
      · rw [if_pos (by omega), if_pos hbrk]
        simp
      · rw [if_neg (by omega), if_neg hbrk]
        have hcast : min ((start : Int) + (chunk_size : Int))
            ((tokens.length : Int)) - (overlap : Int) =
            ((start + (chunk_size - overlap) : Nat) : Int) := by omega
        rw [hcast,
          ih (start + (chunk_size - overlap))
            (acc ++ [tok.dec ((tokens.drop start).take chunk_size)]) (by omega)]
        simp
    · rw [if_neg (by omega), if_neg hs]
      simp

theorem specWindows_get_window (tokens : List Nat) (chunk_size overlap : Nat)
    (hov : overlap < chunk_size) :
    ∀ fuel (start : Nat), tokens.length - start < fuel →
      ∀ i (h : i < (specWindows tokens chunk_size (chunk_size - overlap)
          fuel start).length),
        (specWindows tokens chunk_size (chunk_size - overlap) fuel start).get
            ⟨i, h⟩ =
          (tokens.drop (start + i * (chunk_size - overlap))).take chunk_size := by
  intro fuel
  induction fuel with
  | zero => intro start hf i h; exact absurd h (by simp [specWindows])
  | succ n ih =>
    intro start hf i h
    by_cases hs : start < tokens.length
    · by_cases hbrk : tokens.length ≤ start + chunk_size
      · have hstep : specWindows tokens chunk_size (chunk_size - overlap)
            (n + 1) start =
            if start < tokens.length then
              ((tokens.drop start).take chunk_size) ::
                (if tokens.length ≤ start + chunk_size then []
                 else specWindows tokens chunk_size (chunk_size - overlap) n
                   (start + (chunk_size - overlap)))
            else [] := rfl
        have he : specWindows tokens chunk_size (chunk_size - overlap)
            (n + 1) start = [(tokens.drop start).take chunk_size] := by
          rw [hstep, if_pos hs, if_pos hbrk]
        revert h
        rw [he]
        intro h
        have hi : i = 0 := by simpa using Nat.lt_one_iff.1 (by simpa using h)
        subst hi
        simp
      · have hstep : specWindows tokens chunk_size (chunk_size - overlap)
            (n + 1) start =
            if start < tokens.length then
              ((tokens.drop start).take chunk_size) ::
                (if tokens.length ≤ start + chunk_size then []
                 else specWindows tokens chunk_size (chunk_size - overlap) n
                   (start + (chunk_size - overlap)))
            else [] := rfl
        have he : specWindows tokens chunk_size (chunk_size - overlap)
            (n + 1) start = ((tokens.drop start).take chunk_size) ::
              specWindows tokens chunk_size (chunk_size - overlap) n
                (start + (chunk_size - overlap)) := by
          rw [hstep, if_pos hs, if_neg hbrk]
        revert h
        rw [he]
        intro h
        cases i with
        | zero => simp
        | succ j =>
          have h2 : j < (specWindows tokens chunk_size (chunk_size - overlap) n
              (start + (chunk_size - overlap))).length := by
            simpa using h
          have hrec := ih (start + (chunk_size - overlap)) (by omega) j h2
          have harg : start + (chunk_size - overlap) + j * (chunk_size - overlap) =
              start + (j + 1) * (chunk_size - overlap) := by
            rw [Nat.succ_mul]
            omega
          rw [List.get_cons_succ]
          rw [hrec, harg]
    · exact absurd h (by simp [specWindows, hs])

/-- C4 (amended): `chunk_text_by_tokens` has no guard: when
`overlap ≥ chunk_size` and the text encodes to more than `chunk_size`
tokens, the loop never terminates (the advance `start = end - overlap`
is non-positive, and the run is `none` for every fuel bound); no
configuration error is reported.  When `0 ≤ overlap < chunk_size` the
loop terminates and the `i`-th produced chunk is the decoding of the
window of `chunk_size` tokens starting at `i * (chunk_size - overlap)`,
so consecutive windows share `overlap` tokens and the last window may be
shorter. -/
theorem chunk_behaviour (tok : Tokenizer) (text : String)
    (chunk_size overlap : Nat) :
    ((chunk_size ≤ overlap ∧ (chunk_size : Int) < ((tok.enc text).length : Int)) →
      ∀ fuel acc,
        chunkGo tok (tok.enc text) (chunk_size : Int) (overlap : Int) fuel 0 acc =
          Option.none) ∧
    (overlap < chunk_size →
      chunk_text_by_tokens tok text (chunk_size : Int) (overlap : Int) =
        Option.some ((specWindows (tok.enc text) chunk_size
          (chunk_size - overlap) ((tok.enc text).length + 1) 0).map tok.dec) ∧
      ∀ i (h : i < (specWindows (tok.enc text) chunk_size (chunk_size - overlap)
          ((tok.enc text).length + 1) 0).length),
        (specWindows (tok.enc text) chunk_size (chunk_size - overlap)
            ((tok.enc text).length + 1) 0).get ⟨i, h⟩ =
          ((tok.enc text).drop (i * (chunk_size - overlap))).take chunk_size) := by
  constructor
  · rintro ⟨h1, h2⟩ fuel acc
    exact chunkGo_stuck tok (tok.enc text) (chunk_size : Int) (overlap : Int)
      (by exact_mod_cast h1) h2 (by omega) fuel 0 le_rfl acc
  · intro hov
    constructor
    · unfold chunk_text_by_tokens
      have hrun := chunkGo_spec tok (tok.enc text) chunk_size overlap hov
        ((tok.enc text).length + 1) 0 [] (by omega)
      simpa using hrun
    · intro i h
      have hwin := specWindows_get_window (tok.enc text) chunk_size overlap hov
        ((tok.enc text).length + 1) 0 (by omega) i h
      simpa using hwin

theorem chunk_behaviour_witness :
    chunkGo charTok (charTok.enc "ab") ((1 : Nat) : Int) ((1 : Nat) : Int) 7 0 [] =
      Option.none ∧
    chunk_text_by_tokens charTok "abcde" ((2 : Nat) : Int) ((1 : Nat) : Int) =
      Option.some ((specWindows (charTok.enc "abcde") 2 (2 - 1)
        ((charTok.enc "abcde").length + 1) 0).map charTok.dec) ∧
    (specWindows (charTok.enc "abcde") 2 (2 - 1)
        ((charTok.enc "abcde").length + 1) 0).get ⟨1, by decide⟩ =
      ((charTok.enc "abcde").drop (1 * (2 - 1))).take 2 :=
  ⟨(chunk_behaviour charTok "ab" 1 1).1 ⟨by decide, by decide⟩ 7 [],
   ((chunk_behaviour charTok "abcde" 2 1).2 (by decide)).1,
   ((chunk_behaviour charTok "abcde" 2 1).2 (by decide)).2 1 (by decide)⟩

/-- C4 counterexample: with one token of overlap and chunk size one on a
two-token text, the loop makes no progress: the run is still unfinished
after any number of iterations (here 50, and `chunk_text_by_tokens`
itself reports `none`); the code contains no guard and reports no
configuration error, contrary to the claim. -/
theorem chunk_guard_counterexample :
    chunk_text_by_tokens charTok "ab" 1 1 = Option.none ∧
    chunkGo charTok (charTok.enc "ab") 1 1 50 0 [] = Option.none := by
  constructor <;> decide
